import Mathlib

/-!
Verification of the foldersync repository (package `sync` plus its S3 backend).

Go strings are modeled as `List Char`, Go `time.Time` as `Int` nanoseconds
since the Unix epoch, and Go `int64` as `Int` (with explicit range
hypotheses where the source's overflow behavior matters).  Paths are
modeled for a Unix platform, where `filepath.FromSlash`/`ToSlash` are the
identity.  Each definition carries a comment pointing at the source
construct it embeds.
-/

namespace FolderSync

/-- Go strings modeled as lists of characters. -/
abbrev GoStr := List Char

/-- Go `strings.TrimPrefix(s, p)`: drop `p` from the front of `s` when `p`
is a prefix of `s`, otherwise return `s` unchanged. -/
def trimPfx (s p : GoStr) : GoStr :=
  if p.isPrefixOf s then s.drop p.length else s

/-- Go `strings.TrimSuffix(s, p)`: drop `p` from the end of `s` when `p`
is a suffix of `s`, otherwise return `s` unchanged. -/
def trimSfx (s p : GoStr) : GoStr :=
  if p.isSuffixOf s then s.take (s.length - p.length) else s

/-- `S3Destination.fullKey` (src/sync/s3.go lines 46-52): strip a leading
slash from `rel`; if the configured key pfx is empty return `rel`,
otherwise join the pfx (with its trailing slash stripped) and `rel`
with a single slash. -/
def fullKey (pfx rel : GoStr) : GoStr :=
  let rel' := trimPfx rel ['/']
  if pfx = [] then rel'
  else trimSfx pfx ['/'] ++ '/' :: rel'

/-- `S3Destination.relKey` (src/sync/s3.go lines 54-59): if the configured
key pfx is empty return `full` unchanged, otherwise strip the
pfx (normalized with exactly one trailing slash) from the front. -/
def relKey (pfx full : GoStr) : GoStr :=
  if pfx = [] then full
  else trimPfx full (trimSfx pfx ['/'] ++ ['/'])

theorem trimPfx_append (p k : GoStr) : trimPfx (p ++ k) p = k := by
  unfold trimPfx
  rw [if_pos, List.drop_left]
  exact List.isPrefixOf_iff_prefix.mpr (List.prefix_append p k)

theorem trimPfx_of_head_ne_slash (k : GoStr) (h : k.head? ≠ some '/') :
    trimPfx k ['/'] = k := by
  unfold trimPfx
  rw [if_neg]
  intro hpre
  rcases List.isPrefixOf_iff_prefix.mp hpre with ⟨t, ht⟩
  cases k with
  | nil => simp at ht
  | cons c cs =>
    simp only [List.cons_append, List.nil_append, List.cons.injEq] at ht
    exact h (by simp only [List.head?_cons, ht.1.symm])

/-- Key-mapper round trip: for a relative key with no leading slash,
`relKey pfx (fullKey pfx k) = k`, for every pfx. -/
theorem relKey_fullKey (pfx k : GoStr) (h : k.head? ≠ some '/') :
    relKey pfx (fullKey pfx k) = k := by
  unfold fullKey relKey
  by_cases hp : pfx = []
  · simp only [hp, if_pos rfl]
    exact trimPfx_of_head_ne_slash k h
  · simp only [if_neg hp]
    rw [trimPfx_of_head_ne_slash k h]
    have : trimSfx pfx ['/'] ++ '/' :: k = (trimSfx pfx ['/'] ++ ['/']) ++ k := by
      simp
    rw [this, trimPfx_append]

/-! ### Time, metadata, and the up-to-date classification -/

/-- Go `time.Time` modeled as nanoseconds since the Unix epoch. -/
abbrev TimeNs := Int

/-- Nanoseconds per second (Go's `time.Second`, and the literal `1e9`
in `syncFiles`). -/
def nsPerSec : Int := 1000000000

/-- Go `t.Unix()`: whole seconds since the epoch.  Go's internal
representation keeps a nonnegative nanosecond field, so the sub-second
part is discarded by rounding toward negative infinity. -/
def unixSec (t : TimeNs) : Int := Int.fdiv t nsPerSec

/-- Go `t.Truncate(1e9)` (i.e. one second): round the instant down to a
whole second. -/
def truncSec (t : TimeNs) : TimeNs := unixSec t * nsPerSec

/-- Go's zero `time.Time` (January 1, year 1 UTC), expressed in Unix
nanoseconds: −62135596800 seconds before the epoch. -/
def goZeroTime : TimeNs := -62135596800 * nsPerSec

/-- `ObjectMeta` (src/sync/destination.go): size in bytes and
modification time of a stored object. -/
structure ObjectMeta where
  size : Int
  modTime : TimeNs
deriving DecidableEq, Repr

/-- The fields of Go's `fs.FileInfo` that `syncFiles` reads from a local
file: `Size()` and `ModTime()`. -/
structure FileInfo where
  size : Int
  modTime : TimeNs
deriving DecidableEq, Repr

/-- The up-to-date test of `syncFiles` (src/unnamed/part_001 line 55):
`meta != nil && meta.ModTime.Equal(info.ModTime().Truncate(1e9)) &&
meta.Size == info.Size()`.  Note the stored `meta.ModTime` is compared
as-is; only the local time is truncated. -/
def upToDate (meta : Option ObjectMeta) (info : FileInfo) : Bool :=
  match meta with
  | none => false
  | some m => decide (m.modTime = truncSec info.modTime) && decide (m.size = info.size)

/-- The spec's wording of the same test, for comparison: object exists,
sizes equal, and BOTH modification times truncated to whole seconds are
equal. -/
def specUpToDate (meta : Option ObjectMeta) (info : FileInfo) : Bool :=
  match meta with
  | none => false
  | some m => decide (truncSec m.modTime = truncSec info.modTime) && decide (m.size = info.size)

/-! ### Decimal formatting and parsing (`strconv.FormatInt` / `strconv.ParseInt`) -/

/-- Decimal digit value to character, `'0' + d`. -/
def digitChar (d : Nat) : Char := Char.ofNat (48 + d)

/-- The decimal digits of `n`, least significant first, computed with
explicit fuel so that the definition is structurally recursive (`n`
itself is always enough fuel). -/
def natDigitsRev : Nat → Nat → List Nat
  | 0, _ => []
  | _ + 1, 0 => []
  | fuel + 1, n => n % 10 :: natDigitsRev fuel (n / 10)

/-- Go `strconv.FormatInt(n, 10)` restricted to nonnegative values. -/
def formatNat (n : Nat) : GoStr :=
  if n = 0 then ['0'] else ((natDigitsRev n n).map digitChar).reverse

/-- Go `strconv.FormatInt(x, 10)`: optional minus sign followed by the
decimal digits of the magnitude. -/
def formatInt (x : Int) : GoStr :=
  if x < 0 then '-' :: formatNat x.natAbs else formatNat x.toNat

/-- Character to decimal digit value, as in `strconv`'s per-character
check `'0' <= c && c <= '9'`. -/
def charDigit (c : Char) : Option Nat :=
  if '0' ≤ c ∧ c ≤ '9' then some (c.toNat - 48) else none

/-- The accumulating digit loop of `strconv.ParseUint` (base 10):
`n = n*10 + d` per character, failing on any non-digit. -/
def parseDigitsAux (acc : Nat) : GoStr → Option Nat
  | [] => some acc
  | c :: cs =>
    match charDigit c with
    | some d => parseDigitsAux (acc * 10 + d) cs
    | none => none

/-- Go `strconv.ParseUint(s, 10, _)` without the range check: at least
one character, all decimal digits. -/
def parseNat (s : GoStr) : Option Nat :=
  match s with
  | [] => none
  | _ => parseDigitsAux 0 s

/-- Go `strconv.ParseInt(s, 10, 64)`: optional sign, decimal digits, and
the int64 range check (magnitude at most `2^63` for negative values,
`2^63 - 1` otherwise). -/
def parseInt (s : GoStr) : Option Int :=
  match s with
  | [] => none
  | c :: rest =>
    if c = '-' then
      match parseNat rest with
      | some n => if (n : Int) ≤ 2 ^ 63 then some (-(n : Int)) else none
      | none => none
    else if c = '+' then
      match parseNat rest with
      | some n => if (n : Int) ≤ 2 ^ 63 - 1 then some (n : Int) else none
      | none => none
    else
      match parseNat (c :: rest) with
      | some n => if (n : Int) ≤ 2 ^ 63 - 1 then some (n : Int) else none
      | none => none

/-- Value of a least-significant-first digit list. -/
def ofDigitsRev : List Nat → Nat
  | [] => 0
  | d :: ds => d + 10 * ofDigitsRev ds

theorem natDigitsRev_lt_ten (fuel n : Nat) : ∀ d ∈ natDigitsRev fuel n, d < 10 := by
  induction fuel generalizing n with
  | zero => intro d hd; simp [natDigitsRev] at hd
  | succ fuel ih =>
    intro d hd
    cases n with
    | zero => simp [natDigitsRev] at hd
    | succ m =>
      simp only [natDigitsRev, List.mem_cons] at hd
      rcases hd with h | h
      · omega
      · exact ih _ d h

theorem ofDigitsRev_natDigitsRev (fuel n : Nat) (h : n ≤ fuel) :
    ofDigitsRev (natDigitsRev fuel n) = n := by
  induction fuel generalizing n with
  | zero =>
    interval_cases n
    simp [natDigitsRev, ofDigitsRev]
  | succ fuel ih =>
    cases n with
    | zero => simp [natDigitsRev, ofDigitsRev]
    | succ m =>
      have hd : m + 1 ≤ 10 * fuel + 10 := by omega
      have hdiv : (m + 1) / 10 ≤ fuel := by omega
      simp only [natDigitsRev, ofDigitsRev]
      rw [ih _ hdiv]
      omega

theorem charDigit_digitChar (d : Nat) (h : d < 10) :
    charDigit (digitChar d) = some d := by
  interval_cases d <;> decide

theorem digitChar_ne_minus (d : Nat) (h : d < 10) : digitChar d ≠ '-' := by
  interval_cases d <;> decide

theorem digitChar_ne_plus (d : Nat) (h : d < 10) : digitChar d ≠ '+' := by
  interval_cases d <;> decide

theorem parseDigitsAux_map (ds : List Nat) (hds : ∀ d ∈ ds, d < 10) (acc : Nat) :
    parseDigitsAux acc (ds.map digitChar) =
      some (ds.foldl (fun a d => a * 10 + d) acc) := by
  induction ds generalizing acc with
  | nil => rfl
  | cons d ds ih =>
    simp only [List.map_cons, parseDigitsAux, List.foldl_cons]
    rw [charDigit_digitChar d (hds d (List.mem_cons_self d ds))]
    exact ih (fun x hx => hds x (List.mem_cons_of_mem d hx)) _

theorem foldl_reverse_digits (ds : List Nat) (acc : Nat) :
    (ds.reverse).foldl (fun a d => a * 10 + d) acc =
      acc * 10 ^ ds.length + ofDigitsRev ds := by
  induction ds generalizing acc with
  | nil => simp [ofDigitsRev]
  | cons d ds ih =>
    simp only [List.reverse_cons, List.foldl_append, List.foldl_cons, List.foldl_nil,
      ofDigitsRev, List.length_cons, ih]
    ring

theorem parseNat_formatNat (n : Nat) : parseNat (formatNat n) = some n := by
  by_cases h : n = 0
  · subst h; decide
  · have hform : formatNat n = ((natDigitsRev n n).reverse).map digitChar := by
      rw [formatNat, if_neg h, ← List.map_reverse]
    have hne : natDigitsRev n n ≠ [] := by
      cases n with
      | zero => exact absurd rfl h
      | succ m => simp [natDigitsRev]
    have hlt := natDigitsRev_lt_ten n n
    have hlt' : ∀ d ∈ (natDigitsRev n n).reverse, d < 10 := by
      intro d hd; exact hlt d (List.mem_reverse.mp hd)
    have hnonempty : formatNat n ≠ [] := by
      rw [hform]
      simp only [ne_eq, List.map_eq_nil_iff, List.reverse_eq_nil_iff]
      exact hne
    rcases hmatch : formatNat n with _ | ⟨c, cs⟩
    · exact absurd hmatch hnonempty
    · show parseDigitsAux 0 (c :: cs) = some n
      rw [← hmatch, hform, parseDigitsAux_map _ hlt' 0, foldl_reverse_digits]
      simp [ofDigitsRev_natDigitsRev n n (le_refl n)]

theorem formatNat_head_digit (n : Nat) :
    ∃ d, d < 10 ∧ (formatNat n).head? = some (digitChar d) := by
  by_cases h : n = 0
  · exact ⟨0, by omega, by simp [h, formatNat]; decide⟩
  · have hne : natDigitsRev n n ≠ [] := by
      cases n with
      | zero => exact absurd rfl h
      | succ m => simp [natDigitsRev]
    have hform : formatNat n = ((natDigitsRev n n).map digitChar).reverse := by
      simp [formatNat, h]
    rcases List.exists_cons_of_ne_nil (List.reverse_ne_nil_iff.mpr hne) with ⟨d, ds, hds⟩
    refine ⟨d, natDigitsRev_lt_ten n n d (List.mem_reverse.mp (by rw [hds]; exact List.mem_cons_self d ds)), ?_⟩
    rw [hform, ← List.map_reverse, hds]
    simp

theorem parseInt_formatInt (x : Int) (hlo : -(2 ^ 63) ≤ x) (hhi : x ≤ 2 ^ 63 - 1) :
    parseInt (formatInt x) = some x := by
  have hpow : (2 : Int) ^ 63 = 9223372036854775808 := by norm_num
  rw [hpow] at hlo hhi
  by_cases hneg : x < 0
  · have hfi : formatInt x = '-' :: formatNat x.natAbs := by simp [formatInt, hneg]
    rw [hfi]
    simp only [parseInt, if_pos rfl, parseNat_formatNat]
    have hxa : (x.natAbs : Int) = -x := Int.ofNat_natAbs_of_nonpos (le_of_lt hneg)
    have habs : (x.natAbs : Int) ≤ 2 ^ 63 := by rw [hpow, hxa]; omega
    rw [if_pos habs, hxa, neg_neg]
    simp
  · have hfi : formatInt x = formatNat x.toNat := by simp [formatInt, hneg]
    rcases formatNat_head_digit x.toNat with ⟨d, hd, hhead⟩
    rw [hfi]
    rcases hlist : formatNat x.toNat with _ | ⟨c, cs⟩
    · have : parseNat (formatNat x.toNat) = none := by rw [hlist]; rfl
      rw [parseNat_formatNat] at this
      exact absurd this (by simp)
    · have hc : c = digitChar d := by
        rw [hlist] at hhead
        simpa using hhead
      have hcne1 : c ≠ '-' := by rw [hc]; exact digitChar_ne_minus d hd
      have hcne2 : c ≠ '+' := by rw [hc]; exact digitChar_ne_plus d hd
      have hparse : parseNat (c :: cs) = some x.toNat := by
        rw [← hlist, parseNat_formatNat]
      simp only [parseInt, if_neg hcne1, if_neg hcne2, hparse]
      rw [if_pos (by rw [hpow]; omega)]
      congr 1
      omega

/-! ### Local filesystem and errors -/

/-- Outcome of `os.Stat` on a local path: an entry exists (with its
`IsDir` bit), the path does not exist (`fs.ErrNotExist`, the case
`os.IsNotExist` recognizes), or some other failure such as permission
denied. -/
inductive StatResult where
  | found (isDir : Bool)
  | notFound
  | errOther (msg : GoStr)
deriving DecidableEq, Repr

/-- Go `error` values produced by the sync package, with the
`fmt.Errorf("...: %w", err)` wrappings it applies. -/
inductive GoError where
  | notExist
  | os (msg : GoStr)
  | http (status : Nat)
  | backend (msg : GoStr)
  | notDir (path : GoStr)
  | statWrap (key : GoStr) (e : GoError)
  | deleteWrap (key : GoStr) (e : GoError)
  | srcWrap (e : GoError)
deriving DecidableEq, Repr

/-- One regular file met by `filepath.WalkDir` in `syncFiles`: its
slash-separated relative key (`filepath.Rel` + `filepath.ToSlash`) and
its `fs.FileInfo` fields. -/
structure LocalFile where
  rel : GoStr
  info : FileInfo
deriving DecidableEq, Repr

/-- The local filesystem as one run observes it: the regular files of
the source tree in walk order (directories produce no entries), plus
the behavior of `os.Stat` on arbitrary paths. -/
structure LocalFS where
  files : List LocalFile
  statPath : GoStr → StatResult

/-- `filepath.FromSlash` on a Unix platform: the identity. -/
def fromSlash (s : GoStr) : GoStr := s

/-- `filepath.Join(dir, name)` for a clean directory and a clean
relative name on Unix: concatenation with a single separator. -/
def joinPath (dir name : GoStr) : GoStr := dir ++ '/' :: name

/-! ### The S3 backend (src/sync/s3.go) -/

/-- An object held by the S3 service: its content length and its
user-defined metadata map (modeled as an association list of
string pairs). -/
structure S3Object where
  contentLength : Int
  metadata : List (GoStr × GoStr)
deriving DecidableEq, Repr

/-- The S3 bucket contents under test: full key to object, in key
insertion order (the order a listing reports is unspecified by the
store contract; this model lists insertion order). -/
abbrev S3State := List (GoStr × S3Object)

/-- Association-list lookup by full key (the service's object lookup). -/
def lookupKey : S3State → GoStr → Option S3Object
  | [], _ => none
  | (k', o) :: rest, k => if k' = k then some o else lookupKey rest k

/-- Store an object: replace in place when the key exists, append
otherwise (so an overwrite keeps the key's listing position). -/
def insertKey : S3State → GoStr → S3Object → S3State
  | [], k, o => [(k, o)]
  | (k', o') :: rest, k, o =>
    if k' = k then (k, o) :: rest else (k', o') :: insertKey rest k o

/-- Remove an object by full key. -/
def removeKey (s : S3State) (k : GoStr) : S3State :=
  s.filter (fun kv => decide (kv.1 ≠ k))

/-- Association-list lookup in an object's metadata (Go's
`out.Metadata["mtime"]` map access). -/
def lookupAssoc : List (GoStr × GoStr) → GoStr → Option GoStr
  | [], _ => none
  | (k', v) :: rest, k => if k' = k then some v else lookupAssoc rest k

/-- The `"mtime"` metadata key used by `Put` and `Stat`. -/
def mtimeKey : GoStr := "mtime".toList

/-- The `"size"` metadata key used by `Put`. -/
def sizeKey : GoStr := "size".toList

/-- What `HeadObject` can come back with: the object's data, an
`awshttp.ResponseError` carrying an HTTP status, or an error of some
other shape (the `errors.As` test fails). -/
inductive HeadOutcome where
  | success (contentLength : Int) (metadata : List (GoStr × GoStr))
  | respErr (status : Nat)
  | otherErr (msg : GoStr)
deriving DecidableEq, Repr

/-- `S3Destination.Stat` (src/sync/s3.go lines 75-95) as a function of
the `HeadObject` outcome: a 404 response error becomes `(nil, nil)`
(absent, not an error); any other error is returned; on success the
size is the `ContentLength` and the modification time is rebuilt from
the `"mtime"` metadata entry via `strconv.ParseInt` and
`time.Unix(ts, 0)`, staying the zero `time.Time` when the entry is
missing or unparsable. -/
def statFromHead : HeadOutcome → Except GoError (Option ObjectMeta)
  | .respErr status =>
    if status = 404 then .ok none else .error (.http status)
  | .otherErr msg => .error (.backend msg)
  | .success cl md =>
    .ok (some
      { size := cl
        modTime :=
          match lookupAssoc md mtimeKey with
          | some v =>
            match parseInt v with
            | some ts => ts * nsPerSec
            | none => goZeroTime
          | none => goZeroTime })

/-- The `S3Destination` configuration: the key pfx (bucket, client,
and storage class do not influence the sync logic). -/
structure S3Config where
  pfx : GoStr
deriving DecidableEq, Repr

/-- The S3 service's answer to `HeadObject` against the in-memory
bucket: absent keys produce a 404 response error, present keys the
object's data. -/
def headObject (s : S3State) (key : GoStr) : HeadOutcome :=
  match lookupKey s key with
  | none => .respErr 404
  | some o => .success o.contentLength o.metadata

/-- `S3Destination.Put` (src/sync/s3.go lines 61-73): upload under the
full key, recording `mtime` (Unix seconds) and `size` as side-channel
metadata; the stored `ContentLength` is the uploaded byte count, which
for an unchanged file equals the `size` argument. -/
def s3Put (cfg : S3Config) (s : S3State) (rel : GoStr) (size : Int) (modTime : TimeNs) :
    Except GoError S3State :=
  .ok (insertKey s (fullKey cfg.pfx rel)
    { contentLength := size
      metadata := [(mtimeKey, formatInt (unixSec modTime)), (sizeKey, formatInt size)] })

/-- `S3Destination.Stat`: `HeadObject` on the full key, interpreted by
`statFromHead`. -/
def s3Stat (cfg : S3Config) (s : S3State) (rel : GoStr) :
    Except GoError (Option ObjectMeta) :=
  statFromHead (headObject s (fullKey cfg.pfx rel))

/-- `S3Destination.List` (src/sync/s3.go lines 97-118): list keys under
the normalized pfx (the service filters server-side by the request's
`Prefix` field) and translate each back through `relKey`. -/
def s3List (cfg : S3Config) (s : S3State) : Except GoError (List GoStr) :=
  let p := if cfg.pfx = [] then ([] : GoStr) else trimSfx cfg.pfx ['/'] ++ ['/']
  .ok ((s.filter (fun kv => p.isPrefixOf kv.1)).map (fun kv => relKey cfg.pfx kv.1))

/-- `S3Destination.Delete` (src/sync/s3.go lines 120-126). -/
def s3Delete (cfg : S3Config) (s : S3State) (rel : GoStr) : Except GoError S3State :=
  .ok (removeKey s (fullKey cfg.pfx rel))

/-! ### The Destination interface (src/sync/destination.go) -/

/-- The `Destination` interface, over an abstract backend state `σ`:
`Put`, `Stat`, `List`, `Delete`, each able to fail with a backend
error.  Content streams are not modeled; `put` receives the key, size
and modification time that `syncFiles` passes. -/
structure Destination (σ : Type) where
  put : σ → GoStr → Int → TimeNs → Except GoError σ
  stat : σ → GoStr → Except GoError (Option ObjectMeta)
  list : σ → Except GoError (List GoStr)
  delete : σ → GoStr → Except GoError σ

/-- The S3 backend packaged as a `Destination`. -/
def s3Dest (cfg : S3Config) : Destination S3State :=
  { put := s3Put cfg
    stat := s3Stat cfg
    list := s3List cfg
    delete := s3Delete cfg }

/-! ### Action records and the run log -/

/-- An Action Record: the `upload <key>` / `delete <key>` lines printed
by `syncFiles` and `deleteExtras`. -/
inductive Action where
  | upload (key : GoStr)
  | delete (key : GoStr)
deriving DecidableEq, Repr

/-- Everything observable about one run besides the final backend
state: the printed Action Records and, per operation kind, the calls
issued (keys for `stat`/`put`/`delete`, a count for `list`, local
paths checked with `os.Stat` during the mirror phase). -/
structure RunLog where
  actions : List Action
  stats : List GoStr
  puts : List GoStr
  listCalls : Nat
  localChecks : List GoStr
  deletes : List GoStr
deriving DecidableEq, Repr

/-- The empty run log. -/
def emptyLog : RunLog :=
  { actions := [], stats := [], puts := [], listCalls := 0, localChecks := [], deletes := [] }

/-- Sequential composition of run logs. -/
def logAppend (a b : RunLog) : RunLog :=
  { actions := a.actions ++ b.actions
    stats := a.stats ++ b.stats
    puts := a.puts ++ b.puts
    listCalls := a.listCalls + b.listCalls
    localChecks := a.localChecks ++ b.localChecks
    deletes := a.deletes ++ b.deletes }

/-! ### The sync engine (src/unnamed/part_001) -/

/-- Sync options (`Options` in src/unnamed/part_001), minus the
destination handle, which is passed separately. -/
structure SyncOpts where
  src : GoStr
  dryRun : Bool
  delete : Bool
deriving DecidableEq, Repr

/-- One iteration of the `syncFiles` walk callback for a regular file
(src/unnamed/part_001 lines 51-71): `Stat` the relative key (a failure
is wrapped `stat <rel>: <err>` and aborts), skip when up to date,
otherwise print `upload <rel>`, and unless dry-run open the file and
`Put` it with its size and modification time. -/
def syncFileStep (d : Destination σ) (dryRun : Bool) (f : LocalFile) (s : σ) :
    RunLog × Except GoError σ :=
  match d.stat s f.rel with
  | .error e => ({ emptyLog with stats := [f.rel] }, .error (.statWrap f.rel e))
  | .ok meta =>
    if upToDate meta f.info then
      ({ emptyLog with stats := [f.rel] }, .ok s)
    else if dryRun then
      ({ emptyLog with stats := [f.rel], actions := [.upload f.rel] }, .ok s)
    else
      match d.put s f.rel f.info.size f.info.modTime with
      | .error e =>
        ({ emptyLog with stats := [f.rel], actions := [.upload f.rel], puts := [f.rel] },
          .error e)
      | .ok s' =>
        ({ emptyLog with stats := [f.rel], actions := [.upload f.rel], puts := [f.rel] },
          .ok s')

/-- `syncFiles` (src/unnamed/part_001 lines 34-72): the walk over the
source tree's regular files in order, stopping at the first error. -/
def syncFilesRun (d : Destination σ) (dryRun : Bool) :
    List LocalFile → σ → RunLog × Except GoError σ
  | [], s => (emptyLog, .ok s)
  | f :: rest, s =>
    match syncFileStep d dryRun f s with
    | (log, .error e) => (log, .error e)
    | (log, .ok s') =>
      match syncFilesRun d dryRun rest s' with
      | (log', r) => (logAppend log log', r)

/-- The body of the `deleteExtras` loop for one listed key
(src/unnamed/part_001 lines 80-90): map the key to a local path, test
existence with `os.Stat`; only a not-exist result makes the key a
delete candidate (`os.IsNotExist(err)`); any other outcome — including
a stat failure for another reason — is treated as "present" and
skipped.  For a candidate, print `delete <key>` and, unless dry-run,
call `Delete` (a failure is wrapped `delete <key>: <err>` and aborts). -/
def deleteKeyStep (d : Destination σ) (dryRun : Bool) (src : GoStr)
    (lstat : GoStr → StatResult) (key : GoStr) (s : σ) : RunLog × Except GoError σ :=
  let path := joinPath src (fromSlash key)
  match lstat path with
  | .notFound =>
    if dryRun then
      ({ emptyLog with localChecks := [path], actions := [.delete key] }, .ok s)
    else
      match d.delete s key with
      | .error e =>
        ({ emptyLog with localChecks := [path], actions := [.delete key], deletes := [key] },
          .error (.deleteWrap key e))
      | .ok s' =>
        ({ emptyLog with localChecks := [path], actions := [.delete key], deletes := [key] },
          .ok s')
  | _ => ({ emptyLog with localChecks := [path] }, .ok s)

/-- The `deleteExtras` loop over the listed keys. -/
def deleteLoop (d : Destination σ) (dryRun : Bool) (src : GoStr)
    (lstat : GoStr → StatResult) : List GoStr → σ → RunLog × Except GoError σ
  | [], s => (emptyLog, .ok s)
  | k :: rest, s =>
    match deleteKeyStep d dryRun src lstat k s with
    | (log, .error e) => (log, .error e)
    | (log, .ok s') =>
      match deleteLoop d dryRun src lstat rest s' with
      | (log', r) => (logAppend log log', r)

/-- `deleteExtras` (src/unnamed/part_001 lines 74-92): `List` the
destination once (a failure aborts), then run the loop. -/
def deleteExtrasRun (d : Destination σ) (dryRun : Bool) (src : GoStr)
    (lstat : GoStr → StatResult) (s : σ) : RunLog × Except GoError σ :=
  match d.list s with
  | .error e => ({ emptyLog with listCalls := 1 }, .error e)
  | .ok keys =>
    match deleteLoop d dryRun src lstat keys s with
    | (log, r) => (logAppend { emptyLog with listCalls := 1 } log, r)

/-- `validateSrc` (src/unnamed/part_001 lines 94-103): `os.Stat` the
source; an error is wrapped `source: <err>`; a non-directory is the
error `source %q is not a directory`. -/
def validateSrc (lstat : GoStr → StatResult) (src : GoStr) : Except GoError Unit :=
  match lstat src with
  | .notFound => .error (.srcWrap .notExist)
  | .errOther msg => .error (.srcWrap (.os msg))
  | .found isDir => if isDir then .ok () else .error (.notDir src)

/-- `Sync` (src/unnamed/part_001 lines 21-32): validate the source,
run `syncFiles`, and run `deleteExtras` only when the delete flag is
set; the first error short-circuits everything after it. -/
def SyncRun (d : Destination σ) (opts : SyncOpts) (lfs : LocalFS) (s : σ) :
    RunLog × Except GoError σ :=
  match validateSrc lfs.statPath opts.src with
  | .error e => (emptyLog, .error e)
  | .ok _ =>
    match syncFilesRun d opts.dryRun lfs.files s with
    | (log1, .error e) => (log1, .error e)
    | (log1, .ok s1) =>
      if opts.delete then
        match deleteExtrasRun d opts.dryRun opts.src lfs.statPath s1 with
        | (log2, r) => (logAppend log1 log2, r)
      else (log1, .ok s1)

/-! ### Helper lemmas about the S3 state -/

/-- The listing order of the bucket: its keys in state order. -/
def keyList (s : S3State) : List GoStr := s.map (fun kv => kv.1)

theorem lookupKey_insertKey_self (s : S3State) (k : GoStr) (o : S3Object) :
    lookupKey (insertKey s k o) k = some o := by
  induction s with
  | nil => simp [insertKey, lookupKey]
  | cons kv rest ih =>
    by_cases h : kv.1 = k
    · simp [insertKey, h, lookupKey]
    · simp [insertKey, h, lookupKey, ih]

theorem lookupKey_insertKey_ne (s : S3State) (k k' : GoStr) (o : S3Object)
    (h : k' ≠ k) : lookupKey (insertKey s k o) k' = lookupKey s k' := by
  have h' : ¬ (k = k') := fun hc => h hc.symm
  induction s with
  | nil => simp [insertKey, lookupKey, h']
  | cons kv rest ih =>
    obtain ⟨k0, o0⟩ := kv
    by_cases hk : k0 = k
    · have hkk' : ¬ (k0 = k') := by rw [hk]; exact h'
      simp [insertKey, hk, lookupKey, h', hkk']
    · by_cases hk' : k0 = k'
      · simp [insertKey, hk, lookupKey, hk', h]
      · simp [insertKey, hk, lookupKey, hk', ih]

theorem keyList_insertKey (s : S3State) (k : GoStr) (o : S3Object) :
    keyList (insertKey s k o) =
      if lookupKey s k = none then keyList s ++ [k] else keyList s := by
  induction s with
  | nil => simp [insertKey, keyList, lookupKey]
  | cons kv rest ih =>
    obtain ⟨k0, o0⟩ := kv
    by_cases h : k0 = k
    · simp [insertKey, h, keyList, lookupKey]
    · simp only [insertKey, if_neg h, keyList, List.map_cons, lookupKey, ih]
      by_cases hl : lookupKey rest k = none
      · simpa [keyList, hl] using ih
      · simpa [keyList, hl] using ih

/-- The metadata `Stat` reconstructs from a stored object. -/
def metaOf (o : S3Object) : ObjectMeta :=
  { size := o.contentLength
    modTime :=
      match lookupAssoc o.metadata mtimeKey with
      | some v =>
        match parseInt v with
        | some ts => ts * nsPerSec
        | none => goZeroTime
      | none => goZeroTime }

theorem s3Stat_eq (cfg : S3Config) (st : S3State) (rel : GoStr) :
    s3Stat cfg st rel = .ok ((lookupKey st (fullKey cfg.pfx rel)).map metaOf) := by
  unfold s3Stat headObject
  cases h : lookupKey st (fullKey cfg.pfx rel) with
  | none => rfl
  | some o => rfl

theorem fullKey_inj (pfx a b : GoStr) (ha : a.head? ≠ some '/')
    (hb : b.head? ≠ some '/') (h : fullKey pfx a = fullKey pfx b) : a = b := by
  unfold fullKey at h
  rw [trimPfx_of_head_ne_slash a ha, trimPfx_of_head_ne_slash b hb] at h
  by_cases hp : pfx = []
  · simpa [hp] using h
  · simp only [if_neg hp] at h
    have h2 := List.append_cancel_left h
    simpa using h2

/-! ### Phase lemmas -/

/-- The object `Put` stores for a local file. -/
def objFor (f : LocalFile) : S3Object :=
  { contentLength := f.info.size
    metadata := [(mtimeKey, formatInt (unixSec f.info.modTime)),
                 (sizeKey, formatInt f.info.size)] }

/-- The bucket state after uploading every file in order. -/
def putAll (cfg : S3Config) (files : List LocalFile) (s : S3State) : S3State :=
  files.foldl (fun st f => insertKey st (fullKey cfg.pfx f.rel) (objFor f)) s

theorem lookupKey_putAll_notmem (cfg : S3Config) (files : List LocalFile)
    (k : GoStr) : ∀ s, k ∉ files.map (fun f => fullKey cfg.pfx f.rel) →
    lookupKey (putAll cfg files s) k = lookupKey s k := by
  induction files with
  | nil => intro s _; rfl
  | cons f rest ih =>
    intro s hk
    simp only [List.map_cons, List.mem_cons, not_or] at hk
    show lookupKey (putAll cfg rest (insertKey s (fullKey cfg.pfx f.rel) (objFor f))) k = _
    rw [ih _ hk.2, lookupKey_insertKey_ne _ _ _ _ hk.1]

theorem lookupKey_putAll (cfg : S3Config) (files : List LocalFile) (f : LocalFile) :
    ∀ s, f ∈ files → (files.map (fun g => fullKey cfg.pfx g.rel)).Nodup →
    lookupKey (putAll cfg files s) (fullKey cfg.pfx f.rel) = some (objFor f) := by
  induction files with
  | nil => intro s h _; exact absurd h (List.not_mem_nil f)
  | cons g rest ih =>
    intro s hmem hnd
    simp only [List.map_cons, List.nodup_cons] at hnd
    rcases List.mem_cons.mp hmem with heq | hmem'
    · subst heq
      show lookupKey (putAll cfg rest (insertKey s (fullKey cfg.pfx f.rel) (objFor f)))
        (fullKey cfg.pfx f.rel) = _
      rw [lookupKey_putAll_notmem cfg rest _ _ hnd.1, lookupKey_insertKey_self]
    · exact ih _ hmem' hnd.2

/-- For an int64-range modification time, `Stat` reconstructs exactly
the whole-second truncation recorded by `Put`. -/
theorem metaOf_objFor (f : LocalFile)
    (hlo : -(2 ^ 63) ≤ unixSec f.info.modTime)
    (hhi : unixSec f.info.modTime ≤ 2 ^ 63 - 1) :
    metaOf (objFor f) = { size := f.info.size, modTime := truncSec f.info.modTime } := by
  unfold metaOf objFor
  simp [lookupAssoc, parseInt_formatInt _ hlo hhi, truncSec]

theorem upToDate_matching (f : LocalFile) :
    upToDate (some { size := f.info.size, modTime := truncSec f.info.modTime }) f.info = true := by
  simp [upToDate]

/-- First run against fresh keys: every file is statted, reported and
uploaded, and the final bucket holds `putAll`. -/
theorem syncFiles_fresh (cfg : S3Config) (files : List LocalFile) : ∀ s : S3State,
    (∀ f ∈ files, lookupKey s (fullKey cfg.pfx f.rel) = none) →
    (files.map (fun f => fullKey cfg.pfx f.rel)).Nodup →
    syncFilesRun (s3Dest cfg) false files s =
      ({ emptyLog with
          stats := files.map (fun f => f.rel)
          actions := files.map (fun f => .upload f.rel)
          puts := files.map (fun f => f.rel) },
        .ok (putAll cfg files s)) := by
  induction files with
  | nil => intro s _ _; rfl
  | cons f rest ih =>
    intro s habs hnd
    simp only [List.map_cons, List.nodup_cons] at hnd
    have hstat : (s3Dest cfg).stat s f.rel = .ok none := by
      show s3Stat cfg s f.rel = .ok none
      rw [s3Stat_eq, habs f (List.mem_cons_self f rest)]
      rfl
    have hrest : ∀ g ∈ rest, lookupKey
        (insertKey s (fullKey cfg.pfx f.rel) (objFor f)) (fullKey cfg.pfx g.rel) = none := by
      intro g hg
      rw [lookupKey_insertKey_ne]
      · exact habs g (List.mem_cons_of_mem f hg)
      · intro hc
        exact hnd.1 (hc ▸ List.mem_map_of_mem (fun x => fullKey cfg.pfx x.rel) hg)
    have hput : (s3Dest cfg).put s f.rel f.info.size f.info.modTime =
        .ok (insertKey s (fullKey cfg.pfx f.rel) (objFor f)) := rfl
    simp only [syncFilesRun, syncFileStep, hstat, upToDate, Bool.false_eq_true, if_false,
      hput, ih _ hrest hnd.2]
    simp [logAppend, emptyLog, putAll]

/-- A run in which every file's `Stat` answers with exactly the file's
size and truncated modification time does nothing: no actions, no
puts, state unchanged. -/
theorem syncFiles_skip (d : Destination σ) (files : List LocalFile) : ∀ s : σ,
    (∀ f ∈ files, d.stat s f.rel =
      .ok (some { size := f.info.size, modTime := truncSec f.info.modTime })) →
    syncFilesRun d false files s =
      ({ emptyLog with stats := files.map (fun f => f.rel) }, .ok s) := by
  induction files with
  | nil => intro s _; rfl
  | cons f rest ih =>
    intro s hstat
    have hf := hstat f (List.mem_cons_self f rest)
    have hrest : ∀ g ∈ rest, d.stat s g.rel =
        .ok (some { size := g.info.size, modTime := truncSec g.info.modTime }) :=
      fun g hg => hstat g (List.mem_cons_of_mem f hg)
    simp only [syncFilesRun, syncFileStep, hf, upToDate_matching, if_true, ih _ hrest]
    simp [logAppend, emptyLog]

/-- The upload phase never lists, never deletes, and never checks local
paths, whatever happens. -/
theorem syncFilesRun_frame (d : Destination σ) (dryRun : Bool) (files : List LocalFile) :
    ∀ s : σ, (syncFilesRun d dryRun files s).1.listCalls = 0 ∧
      (syncFilesRun d dryRun files s).1.deletes = [] ∧
      (syncFilesRun d dryRun files s).1.localChecks = [] := by
  induction files with
  | nil => intro s; exact ⟨rfl, rfl, rfl⟩
  | cons f rest ih =>
    intro s
    have hstep : (syncFileStep d dryRun f s).1.listCalls = 0 ∧
        (syncFileStep d dryRun f s).1.deletes = [] ∧
        (syncFileStep d dryRun f s).1.localChecks = [] := by
      unfold syncFileStep
      rcases d.stat s f.rel with e | meta
      · exact ⟨rfl, rfl, rfl⟩
      · by_cases h1 : upToDate meta f.info
        · simp [h1, emptyLog]
        · by_cases h2 : dryRun
          · simp [h1, h2, emptyLog]
          · simp only [h1, h2, Bool.false_eq_true, if_false]
            rcases d.put s f.rel f.info.size f.info.modTime with e | s'
            · exact ⟨rfl, rfl, rfl⟩
            · exact ⟨rfl, rfl, rfl⟩
    unfold syncFilesRun
    rcases hs : syncFileStep d dryRun f s with ⟨log, r⟩
    rw [hs] at hstep
    rcases r with e | s'
    · exact hstep
    · rcases hr : syncFilesRun d dryRun rest s' with ⟨log', r'⟩
      have h2 := ih s'
      rw [hr] at h2
      simp [logAppend, hr]
      exact ⟨⟨hstep.1, h2.1⟩, ⟨hstep.2.1, h2.2.1⟩, hstep.2.2, h2.2.2⟩

/-- Whether a local stat outcome is the not-exist case that
`os.IsNotExist` recognizes. -/
def isNotFound : StatResult → Bool
  | .notFound => true
  | _ => false

/-- Closed form of the `deleteExtras` loop when `Delete` cannot fail
(as with the in-memory S3 model): every key's local path is checked,
an Action Record is printed exactly for the keys whose local path does
not exist, those same keys are deleted when not in dry-run, and the
loop never aborts. -/
theorem deleteLoop_spec (d : Destination σ) (dryRun : Bool) (src : GoStr)
    (lstat : GoStr → StatResult) (keys : List GoStr)
    (hdel : ∀ (s : σ) (k : GoStr), ∃ s', d.delete s k = .ok s') : ∀ s : σ,
    ∃ send, deleteLoop d dryRun src lstat keys s =
      ({ emptyLog with
          localChecks := keys.map (fun k => joinPath src (fromSlash k))
          actions := (keys.filter
            (fun k => isNotFound (lstat (joinPath src (fromSlash k))))).map Action.delete
          deletes := if dryRun then []
            else keys.filter (fun k => isNotFound (lstat (joinPath src (fromSlash k)))) },
        .ok send) := by
  induction keys with
  | nil =>
    intro s
    refine ⟨s, ?_⟩
    simp [deleteLoop, emptyLog]
  | cons k rest ih =>
    intro s
    rcases hls : lstat (joinPath src (fromSlash k)) with b | _ | msg
    · rcases ih s with ⟨send, hrest⟩
      refine ⟨send, ?_⟩
      simp only [deleteLoop, deleteKeyStep, hls, hrest]
      simp [logAppend, emptyLog, List.filter_cons, isNotFound, hls]
    · by_cases hd : dryRun = true
      · rcases ih s with ⟨send, hrest⟩
        refine ⟨send, ?_⟩
        simp only [deleteLoop, deleteKeyStep, hls, if_pos hd, hrest]
        simp [logAppend, emptyLog, List.filter_cons, isNotFound, hls, hd]
      · rcases hdel s k with ⟨s', hs'⟩
        rcases ih s' with ⟨send, hrest⟩
        refine ⟨send, ?_⟩
        simp only [deleteLoop, deleteKeyStep, hls, if_neg hd, hs', hrest]
        simp [logAppend, emptyLog, List.filter_cons, isNotFound, hls, hd]
    · rcases ih s with ⟨send, hrest⟩
      refine ⟨send, ?_⟩
      simp only [deleteLoop, deleteKeyStep, hls, hrest]
      simp [logAppend, emptyLog, List.filter_cons, isNotFound, hls]

/-- A key whose local path exists (file, directory, or any other
entry) is never printed as a delete action and never deleted, whatever
else happens during the loop. -/
theorem deleteLoop_keeps (d : Destination σ) (dryRun : Bool) (src : GoStr)
    (lstat : GoStr → StatResult) (k : GoStr) (b : Bool)
    (hk : lstat (joinPath src (fromSlash k)) = .found b) : ∀ (keys : List GoStr) (s : σ),
    Action.delete k ∉ (deleteLoop d dryRun src lstat keys s).1.actions ∧
      k ∉ (deleteLoop d dryRun src lstat keys s).1.deletes := by
  intro keys
  induction keys with
  | nil => intro s; simp [deleteLoop, emptyLog]
  | cons k' rest ih =>
    intro s
    have hne : ∀ h : lstat (joinPath src (fromSlash k')) = .notFound, k' ≠ k := by
      intro h hc
      rw [hc, hk] at h
      exact StatResult.noConfusion h
    rcases hls : lstat (joinPath src (fromSlash k')) with b' | _ | msg
    · simp only [deleteLoop, deleteKeyStep, hls]
      rcases hr : deleteLoop d dryRun src lstat rest s with ⟨log', r'⟩
      have h2 := ih s
      rw [hr] at h2
      simp [logAppend, emptyLog, h2.1, h2.2]
    · have hkk : k' ≠ k := hne hls
      by_cases hd : dryRun = true
      · simp only [deleteLoop, deleteKeyStep, hls, if_pos hd]
        rcases hr : deleteLoop d dryRun src lstat rest s with ⟨log', r'⟩
        have h2 := ih s
        rw [hr] at h2
        simp [logAppend, emptyLog, h2.1, h2.2, Ne.symm hkk]
      · simp only [deleteLoop, deleteKeyStep, hls, if_neg hd]
        rcases hdel : d.delete s k' with e | s'
        · simp [logAppend, emptyLog, Ne.symm hkk]
        · rcases hr : deleteLoop d dryRun src lstat rest s' with ⟨log', r'⟩
          have h2 := ih s'
          rw [hr] at h2
          simp [logAppend, emptyLog, hr, h2.1, h2.2, Ne.symm hkk]
    · simp only [deleteLoop, deleteKeyStep, hls]
      rcases hr : deleteLoop d dryRun src lstat rest s with ⟨log', r'⟩
      have h2 := ih s
      rw [hr] at h2
      simp [logAppend, emptyLog, h2.1, h2.2]

/-- The keys a listing reports, as a function of the state's key
sequence alone. -/
def listKeysOf (cfg : S3Config) (ks : List GoStr) : List GoStr :=
  (ks.filter (fun k =>
    (if cfg.pfx = [] then ([] : GoStr) else trimSfx cfg.pfx ['/'] ++ ['/']).isPrefixOf k)).map
    (relKey cfg.pfx)

theorem s3List_eq (cfg : S3Config) (s : S3State) :
    s3List cfg s = .ok (listKeysOf cfg (keyList s)) := by
  simp only [s3List, listKeysOf, keyList, List.filter_map, List.map_map]
  rfl

theorem listPfx_isPrefixOf_fullKey (cfg : S3Config) (rel : GoStr) :
    (if cfg.pfx = [] then ([] : GoStr) else trimSfx cfg.pfx ['/'] ++ ['/']).isPrefixOf
      (fullKey cfg.pfx rel) = true := by
  by_cases hp : cfg.pfx = []
  · simp [hp, List.isPrefixOf]
  · rw [if_neg hp]
    unfold fullKey
    rw [if_neg hp]
    exact List.isPrefixOf_iff_prefix.mpr
      ⟨trimPfx rel ['/'], by simp⟩

/-- One `syncFiles` iteration against the S3 backend, in closed form. -/
theorem syncFileStep_s3 (cfg : S3Config) (dry : Bool) (f : LocalFile) (s : S3State) :
    syncFileStep (s3Dest cfg) dry f s =
      if upToDate ((lookupKey s (fullKey cfg.pfx f.rel)).map metaOf) f.info then
        ({ emptyLog with stats := [f.rel] }, .ok s)
      else if dry then
        ({ emptyLog with stats := [f.rel], actions := [.upload f.rel] }, .ok s)
      else
        ({ emptyLog with stats := [f.rel], actions := [.upload f.rel], puts := [f.rel] },
          .ok (insertKey s (fullKey cfg.pfx f.rel) (objFor f))) := by
  unfold syncFileStep
  rw [show (s3Dest cfg).stat = s3Stat cfg from rfl, s3Stat_eq]
  by_cases h : upToDate ((lookupKey s (fullKey cfg.pfx f.rel)).map metaOf) f.info
  · simp [h]
  · by_cases hd : dry = true
    · simp [h, hd]
    · simp only [h, Bool.false_eq_true, if_false, if_neg hd]
      rfl

/-- Dry-run versus live upload phase: started from states that agree
on every file's key, the two phases print the same actions and issue
the same stats; the dry phase writes nothing and keeps its state; the
live phase succeeds and extends the key sequence only with keys of
walked files. -/
theorem syncFiles_dry_live (cfg : S3Config) (files : List LocalFile) (s : S3State) :
    ∀ s' : S3State,
    (∀ f ∈ files, lookupKey s' (fullKey cfg.pfx f.rel) = lookupKey s (fullKey cfg.pfx f.rel)) →
    (files.map (fun f => fullKey cfg.pfx f.rel)).Nodup →
    (syncFilesRun (s3Dest cfg) true files s).1.actions =
        (syncFilesRun (s3Dest cfg) false files s').1.actions ∧
    (syncFilesRun (s3Dest cfg) true files s).1.stats =
        (syncFilesRun (s3Dest cfg) false files s').1.stats ∧
    (syncFilesRun (s3Dest cfg) true files s).1.puts = [] ∧
    (syncFilesRun (s3Dest cfg) true files s).2 = .ok s ∧
    ∃ s'' ex, (syncFilesRun (s3Dest cfg) false files s').2 = .ok s'' ∧
      keyList s'' = keyList s' ++ ex ∧
      ∀ k ∈ ex, ∃ f ∈ files, k = fullKey cfg.pfx f.rel := by
  induction files generalizing s with
  | nil =>
    intro s' _ _
    exact ⟨rfl, rfl, rfl, rfl, s', [], rfl, by simp, by simp⟩
  | cons f rest ih =>
    intro s' hag hnd
    simp only [List.map_cons, List.nodup_cons] at hnd
    have hagf := hag f (List.mem_cons_self f rest)
    have hagrest : ∀ g ∈ rest, lookupKey s' (fullKey cfg.pfx g.rel) =
        lookupKey s (fullKey cfg.pfx g.rel) :=
      fun g hg => hag g (List.mem_cons_of_mem f hg)
    by_cases hupd : upToDate ((lookupKey s (fullKey cfg.pfx f.rel)).map metaOf) f.info
    · -- both runs skip this file
      rcases ih s s' hagrest hnd.2 with ⟨hact, hstat, hput, hdry, s'', ex, hlive, hkeys, hex⟩
      simp only [syncFilesRun, syncFileStep_s3, hagf, hupd, if_true]
      rcases hD : syncFilesRun (s3Dest cfg) true rest s with ⟨logD, rD⟩
      rcases hL : syncFilesRun (s3Dest cfg) false rest s' with ⟨logL, rL⟩
      rw [hD] at hact hstat hput hdry
      rw [hL] at hact hstat hlive
      have hact' : logD.actions = logL.actions := hact
      have hstat' : logD.stats = logL.stats := hstat
      have hput' : logD.puts = [] := hput
      have hdry' : rD = Except.ok s := hdry
      have hlive' : rL = Except.ok s'' := hlive
      refine ⟨by simp [logAppend, emptyLog, hact'], by simp [logAppend, emptyLog, hstat'],
        by simp [logAppend, emptyLog, hput'], hdry',
        s'', ex, hlive', hkeys, fun k hk => ?_⟩
      rcases hex k hk with ⟨g, hg, hkg⟩
      exact ⟨g, List.mem_cons_of_mem f hg, hkg⟩
    · -- both runs print an upload; the live run also puts
      have hagrest2 : ∀ g ∈ rest,
          lookupKey (insertKey s' (fullKey cfg.pfx f.rel) (objFor f)) (fullKey cfg.pfx g.rel) =
            lookupKey s (fullKey cfg.pfx g.rel) := by
        intro g hg
        rw [lookupKey_insertKey_ne]
        · exact hagrest g hg
        · intro hc
          exact hnd.1 (hc ▸ List.mem_map_of_mem (fun x => fullKey cfg.pfx x.rel) hg)
      rcases ih s (insertKey s' (fullKey cfg.pfx f.rel) (objFor f)) hagrest2 hnd.2 with
        ⟨hact, hstat, hput, hdry, s'', ex, hlive, hkeys, hex⟩
      simp only [syncFilesRun, syncFileStep_s3, hagf, hupd, Bool.false_eq_true, if_false,
        if_true]
      rcases hD : syncFilesRun (s3Dest cfg) true rest s with ⟨logD, rD⟩
      rcases hL : syncFilesRun (s3Dest cfg) false rest
          (insertKey s' (fullKey cfg.pfx f.rel) (objFor f)) with ⟨logL, rL⟩
      rw [hD] at hact hstat hput hdry
      rw [hL] at hact hstat hlive
      have hact' : logD.actions = logL.actions := hact
      have hstat' : logD.stats = logL.stats := hstat
      have hput' : logD.puts = [] := hput
      have hdry' : rD = Except.ok s := hdry
      have hlive' : rL = Except.ok s'' := hlive
      have hkeys2 : keyList (insertKey s' (fullKey cfg.pfx f.rel) (objFor f)) =
          keyList s' ++ (if lookupKey s' (fullKey cfg.pfx f.rel) = none
            then [fullKey cfg.pfx f.rel] else []) := by
        rw [keyList_insertKey]
        by_cases h0 : lookupKey s' (fullKey cfg.pfx f.rel) = none
        · simp [h0]
        · simp [h0]
      refine ⟨by simp [logAppend, emptyLog, hact'], by simp [logAppend, emptyLog, hstat'],
        by simp [logAppend, emptyLog, hput'], hdry',
        s'', (if lookupKey s' (fullKey cfg.pfx f.rel) = none
          then [fullKey cfg.pfx f.rel] else []) ++ ex, hlive', ?_, ?_⟩
      · rw [hkeys, hkeys2, List.append_assoc]
      · intro k hk
        rcases List.mem_append.mp hk with hk1 | hk2
        · refine ⟨f, List.mem_cons_self f rest, ?_⟩
          by_cases h0 : lookupKey s' (fullKey cfg.pfx f.rel) = none
          · simpa [h0] using hk1
          · simp [h0] at hk1
        · rcases hex k hk2 with ⟨g, hg, hkg⟩
          exact ⟨g, List.mem_cons_of_mem f hg, hkg⟩

theorem deleteLoop_dry_state (d : Destination σ) (src : GoStr)
    (lstat : GoStr → StatResult) (keys : List GoStr) : ∀ s : σ,
    (deleteLoop d true src lstat keys s).2 = .ok s := by
  induction keys with
  | nil => intro s; rfl
  | cons k rest ih =>
    intro s
    unfold deleteLoop deleteKeyStep
    rcases hls : lstat (joinPath src (fromSlash k)) with b | _ | msg <;>
      simp only [hls, if_pos rfl] <;> exact ih s

theorem listKeysOf_append (cfg : S3Config) (a b : List GoStr) :
    listKeysOf cfg (a ++ b) = listKeysOf cfg a ++ listKeysOf cfg b := by
  simp [listKeysOf, List.filter_append]

theorem nodup_fullKeys (cfg : S3Config) (files : List LocalFile)
    (hnd : (files.map (fun f => f.rel)).Nodup)
    (hns : ∀ f ∈ files, f.rel.head? ≠ some '/') :
    (files.map (fun f => fullKey cfg.pfx f.rel)).Nodup := by
  have hmm : files.map (fun f => fullKey cfg.pfx f.rel) =
      (files.map (fun f => f.rel)).map (fullKey cfg.pfx) := by
    rw [List.map_map]
    rfl
  rw [hmm]
  refine List.Nodup.map_on ?_ hnd
  intro x hx y hy hxy
  rcases List.mem_map.mp hx with ⟨fx, hfx, hfx2⟩
  rcases List.mem_map.mp hy with ⟨fy, hfy, hfy2⟩
  exact fullKey_inj cfg.pfx x y (hfx2 ▸ hns fx hfx) (hfy2 ▸ hns fy hfy) hxy

/-- The whole mirror phase against the S3 backend, in closed form. -/
theorem deleteExtras_s3 (cfg : S3Config) (dry : Bool) (src : GoStr)
    (lstat : GoStr → StatResult) (s : S3State) :
    ∃ send, deleteExtrasRun (s3Dest cfg) dry src lstat s =
      ({ emptyLog with
          listCalls := 1
          localChecks := (listKeysOf cfg (keyList s)).map (fun k => joinPath src (fromSlash k))
          actions := ((listKeysOf cfg (keyList s)).filter
            (fun k => isNotFound (lstat (joinPath src (fromSlash k))))).map Action.delete
          deletes := if dry then [] else (listKeysOf cfg (keyList s)).filter
            (fun k => isNotFound (lstat (joinPath src (fromSlash k)))) },
        .ok send) ∧ (dry = true → send = s) := by
  rcases deleteLoop_spec (s3Dest cfg) dry src lstat (listKeysOf cfg (keyList s))
    (fun st k => ⟨removeKey st (fullKey cfg.pfx k), rfl⟩) s with ⟨send, hloop⟩
  refine ⟨send, ?_, ?_⟩
  · unfold deleteExtrasRun
    rw [show (s3Dest cfg).list = s3List cfg from rfl, s3List_eq]
    simp only [hloop]
    simp [logAppend, emptyLog]
  · intro hdry
    subst hdry
    have h2 := deleteLoop_dry_state (s3Dest cfg) src lstat (listKeysOf cfg (keyList s)) s
    rw [hloop] at h2
    injection h2

/-! ### Claim theorems -/

/-- C3: for every pfx and every valid relative key `k` that does not
begin with a leading slash, `relKey pfx (fullKey pfx k) = k`; the
particular pfxes `""`, `"backups"`, `"backups/"` and keys
`"foo.txt"`, `"a/b/c.txt"` are instances. -/
theorem c3_key_roundtrip (pfx k : GoStr) (h : k.head? ≠ some '/') :
    relKey pfx (fullKey pfx k) = k :=
  relKey_fullKey pfx k h

/-- C3 witness: the round trip at pfx `"backups/"` and key
`"a/b/c.txt"`. -/
theorem c3_key_roundtrip_witness :
    ("a/b/c.txt".toList.head? ≠ some '/') ∧
      relKey "backups/".toList (fullKey "backups/".toList "a/b/c.txt".toList) =
        "a/b/c.txt".toList :=
  ⟨by decide, c3_key_roundtrip "backups/".toList "a/b/c.txt".toList (by decide)⟩

/-- C1 counterexample: a destination state whose stored modification
time carries a sub-second component (0.5 s) against a local file at
0.1 s of the same second and equal size: both truncations agree, so
the claim as stated calls the file up-to-date, but `syncFiles`
compares the stored time untruncated and classifies needs-upload. -/
theorem c1_counterexample :
    truncSec (500000000 : Int) = truncSec (100000000 : Int) ∧
    specUpToDate (some { size := 5, modTime := 500000000 }) { size := 5, modTime := 100000000 }
      = true ∧
    upToDate (some { size := 5, modTime := 500000000 }) { size := 5, modTime := 100000000 }
      = false := by
  refine ⟨by decide, by decide, by decide⟩

/-- C1 (amended): a file is classified up-to-date iff an object exists
at its relative key, the stored size equals the file's size, and the
stored modification time — compared as-is, not truncated — equals the
file's modification time truncated to whole seconds; otherwise the
step prints exactly one upload Action Record for the file. -/
theorem c1_classification (d : Destination σ) (dry : Bool) (f : LocalFile) (s : σ)
    (meta : Option ObjectMeta) (h : d.stat s f.rel = .ok meta) :
    (upToDate meta f.info = true ↔
      ∃ m, meta = some m ∧ m.size = f.info.size ∧ m.modTime = truncSec f.info.modTime) ∧
    (syncFileStep d dry f s).1.actions =
      (if upToDate meta f.info then [] else [Action.upload f.rel]) := by
  constructor
  · cases meta with
    | none => simp [upToDate]
    | some m =>
      simp only [upToDate, Bool.and_eq_true, decide_eq_true_eq]
      constructor
      · rintro ⟨h1, h2⟩; exact ⟨m, rfl, h2, h1⟩
      · rintro ⟨m', hm', h2, h1⟩
        cases hm'
        exact ⟨h1, h2⟩
  · unfold syncFileStep
    rw [h]
    by_cases hu : upToDate meta f.info
    · simp [hu, emptyLog]
    · by_cases hd : dry = true
      · simp [hu, hd, emptyLog]
      · simp only [hu, Bool.false_eq_true, if_false, if_neg hd]
        rcases d.put s f.rel f.info.size f.info.modTime with e | s' <;> simp [hu, emptyLog]

/-- C1 witness: the amended classification at the empty bucket, where
the stat answers absent and one upload action is printed. -/
theorem c1_classification_witness :
    ((s3Dest ⟨[]⟩).stat [] "a.txt".toList = .ok none) ∧
    ((upToDate none { size := 5, modTime := 0 } = true ↔
      ∃ m, (none : Option ObjectMeta) = some m ∧ m.size = 5 ∧ m.modTime = truncSec 0) ∧
    (syncFileStep (s3Dest ⟨[]⟩) false ⟨"a.txt".toList, { size := 5, modTime := 0 }⟩ []).1.actions =
      (if upToDate none { size := 5, modTime := 0 } then [] else [Action.upload "a.txt".toList])) :=
  ⟨rfl, c1_classification (s3Dest ⟨[]⟩) false ⟨"a.txt".toList, { size := 5, modTime := 0 }⟩ []
    none rfl⟩

/-- C2 counterexample: the first listed key's local-existence check
fails with a non-not-found error, yet `deleteExtras` neither
propagates an error nor stops: it finishes with `ok` and still
deletes the second key. -/
theorem c2_counterexample :
    ((fun p : GoStr => if p = "/src/a.txt".toList
        then StatResult.errOther "permission denied".toList
        else StatResult.notFound) (joinPath "/src".toList (fromSlash "a.txt".toList)) =
      StatResult.errOther "permission denied".toList) ∧
    (deleteExtrasRun (s3Dest ⟨[]⟩) false "/src".toList
        (fun p => if p = "/src/a.txt".toList
          then StatResult.errOther "permission denied".toList
          else StatResult.notFound)
        [("a.txt".toList, { contentLength := 1, metadata := [] }),
         ("b.txt".toList, { contentLength := 1, metadata := [] })]).2 =
      .ok [("a.txt".toList, { contentLength := 1, metadata := [] })] ∧
    (deleteExtrasRun (s3Dest ⟨[]⟩) false "/src".toList
        (fun p => if p = "/src/a.txt".toList
          then StatResult.errOther "permission denied".toList
          else StatResult.notFound)
        [("a.txt".toList, { contentLength := 1, metadata := [] }),
         ("b.txt".toList, { contentLength := 1, metadata := [] })]).1.deletes =
      ["b.txt".toList] := by
  refine ⟨rfl, rfl, rfl⟩

/-- C2 (amended): a local-existence check failure for a reason other
than not-found is treated like existence: the key is skipped (no
delete action, no delete call), no error is propagated, the remaining
keys are still all checked, and — when `Delete` itself cannot fail —
the loop finishes without error. -/
theorem c2_check_error_skipped (d : Destination σ) (dry : Bool) (src : GoStr)
    (lstat : GoStr → StatResult) (keys : List GoStr) (s : σ) (k : GoStr) (msg : GoStr)
    (hdel : ∀ (s : σ) (k : GoStr), ∃ s', d.delete s k = .ok s')
    (hk : lstat (joinPath src (fromSlash k)) = .errOther msg) :
    (∃ send, (deleteLoop d dry src lstat keys s).2 = .ok send) ∧
    Action.delete k ∉ (deleteLoop d dry src lstat keys s).1.actions ∧
    k ∉ (deleteLoop d dry src lstat keys s).1.deletes ∧
    (deleteLoop d dry src lstat keys s).1.localChecks =
      keys.map (fun k => joinPath src (fromSlash k)) := by
  rcases deleteLoop_spec d dry src lstat keys hdel s with ⟨send, hform⟩
  rw [hform]
  refine ⟨⟨send, rfl⟩, ?_, ?_, rfl⟩
  · intro hmem
    simp only at hmem
    rcases List.mem_map.mp hmem with ⟨k', hk', heq⟩
    have hkk : k' = k := by injection heq
    subst hkk
    have := (List.mem_filter.mp hk').2
    rw [hk] at this
    simp [isNotFound] at this
  · intro hmem
    simp only at hmem
    by_cases hd : dry = true
    · rw [if_pos hd] at hmem
      exact (List.not_mem_nil k) hmem
    · rw [if_neg hd] at hmem
      have := (List.mem_filter.mp hmem).2
      rw [hk] at this
      simp [isNotFound] at this

/-- C2 witness: the amended behavior on a concrete two-key loop whose
first key's check fails with a permission error. -/
theorem c2_check_error_skipped_witness :
    ((fun p : GoStr => if p = "/src/a.txt".toList
        then StatResult.errOther "denied".toList
        else StatResult.notFound) (joinPath "/src".toList (fromSlash "a.txt".toList)) =
      StatResult.errOther "denied".toList) ∧
    ((∃ send, (deleteLoop (s3Dest ⟨[]⟩) false "/src".toList
        (fun p => if p = "/src/a.txt".toList
          then StatResult.errOther "denied".toList
          else StatResult.notFound)
        ["a.txt".toList, "b.txt".toList] []).2 = .ok send) ∧
    Action.delete "a.txt".toList ∉ (deleteLoop (s3Dest ⟨[]⟩) false "/src".toList
        (fun p => if p = "/src/a.txt".toList
          then StatResult.errOther "denied".toList
          else StatResult.notFound)
        ["a.txt".toList, "b.txt".toList] []).1.actions ∧
    "a.txt".toList ∉ (deleteLoop (s3Dest ⟨[]⟩) false "/src".toList
        (fun p => if p = "/src/a.txt".toList
          then StatResult.errOther "denied".toList
          else StatResult.notFound)
        ["a.txt".toList, "b.txt".toList] []).1.deletes ∧
    (deleteLoop (s3Dest ⟨[]⟩) false "/src".toList
        (fun p => if p = "/src/a.txt".toList
          then StatResult.errOther "denied".toList
          else StatResult.notFound)
        ["a.txt".toList, "b.txt".toList] []).1.localChecks =
      ["a.txt".toList, "b.txt".toList].map
        (fun k => joinPath "/src".toList (fromSlash k))) :=
  ⟨rfl, c2_check_error_skipped (s3Dest ⟨[]⟩) false "/src".toList
    (fun p => if p = "/src/a.txt".toList
      then StatResult.errOther "denied".toList
      else StatResult.notFound)
    ["a.txt".toList, "b.txt".toList] [] "a.txt".toList "denied".toList
    (fun s k => ⟨removeKey s (fullKey [] k), rfl⟩) rfl⟩

/-- C10: a remote key whose mapped local path holds any filesystem
entry — directory (`isDir = true`) or not — is never printed as a
delete action and never deleted by the mirror phase. -/
theorem c10_local_entry_keeps_key (d : Destination σ) (dry : Bool) (src : GoStr)
    (lstat : GoStr → StatResult) (s : σ) (k : GoStr) (b : Bool)
    (hk : lstat (joinPath src (fromSlash k)) = .found b) :
    Action.delete k ∉ (deleteExtrasRun d dry src lstat s).1.actions ∧
      k ∉ (deleteExtrasRun d dry src lstat s).1.deletes := by
  unfold deleteExtrasRun
  rcases d.list s with e | keys
  · simp [emptyLog]
  · rcases hr : deleteLoop d dry src lstat keys s with ⟨log, r⟩
    have h2 := deleteLoop_keeps d dry src lstat k b hk keys s
    rw [hr] at h2
    simp [logAppend, emptyLog, hr, h2.1, h2.2]

/-- C10 witness: a remote key whose local counterpart is now a
directory survives a live mirror pass. -/
theorem c10_local_entry_keeps_key_witness :
    ((fun p : GoStr => if p = "/src/a.txt".toList
        then StatResult.found true else StatResult.notFound)
      (joinPath "/src".toList (fromSlash "a.txt".toList)) = StatResult.found true) ∧
    (Action.delete "a.txt".toList ∉ (deleteExtrasRun (s3Dest ⟨[]⟩) false "/src".toList
        (fun p => if p = "/src/a.txt".toList
          then StatResult.found true else StatResult.notFound)
        [("a.txt".toList, { contentLength := 1, metadata := [] })]).1.actions ∧
      "a.txt".toList ∉ (deleteExtrasRun (s3Dest ⟨[]⟩) false "/src".toList
        (fun p => if p = "/src/a.txt".toList
          then StatResult.found true else StatResult.notFound)
        [("a.txt".toList, { contentLength := 1, metadata := [] })]).1.deletes) :=
  ⟨rfl, c10_local_entry_keeps_key (s3Dest ⟨[]⟩) false "/src".toList
    (fun p => if p = "/src/a.txt".toList
      then StatResult.found true else StatResult.notFound)
    [("a.txt".toList, { contentLength := 1, metadata := [] })] "a.txt".toList true rfl⟩

/-- C7: when the source path does not exist or is a regular file
rather than a directory, `Sync` fails during validation: the result is
an error and the run log is empty — no destination stat, put, list or
delete and no local check was attempted. -/
theorem c7_validation_fatal (d : Destination σ) (opts : SyncOpts) (lfs : LocalFS) (s : σ)
    (h : lfs.statPath opts.src = .notFound ∨ lfs.statPath opts.src = .found false) :
    ∃ e, SyncRun d opts lfs s = (emptyLog, .error e) := by
  unfold SyncRun validateSrc
  rcases h with h | h
  · rw [h]
    exact ⟨.srcWrap .notExist, rfl⟩
  · rw [h]
    exact ⟨.notDir opts.src, rfl⟩

/-- C7 witness: a nonexistent source path makes a concrete run fail
with an empty log. -/
theorem c7_validation_fatal_witness :
    (LocalFS.statPath ⟨[], fun _ => StatResult.notFound⟩ "/nope".toList = .notFound ∨
      LocalFS.statPath ⟨[], fun _ => StatResult.notFound⟩ "/nope".toList = .found false) ∧
    ∃ e, SyncRun (s3Dest ⟨[]⟩) ⟨"/nope".toList, false, true⟩
      ⟨[], fun _ => StatResult.notFound⟩ [] = (emptyLog, .error e) :=
  ⟨Or.inl rfl, c7_validation_fatal (s3Dest ⟨[]⟩) ⟨"/nope".toList, false, true⟩
    ⟨[], fun _ => StatResult.notFound⟩ [] (Or.inl rfl)⟩

/-- C8: `Stat` on an absent key answers `(nil, nil)` — a distinct
non-error result — both at the `HeadObject`-interpretation level (404)
and through the S3 model; any other `HeadObject` failure comes back as
an error; and a `stat` error in `syncFiles` aborts the whole run at
once: the failing file is not uploaded and no later file is processed
or retried. -/
theorem c8_stat_absent_or_fatal (d : Destination σ) (dry : Bool) (f : LocalFile)
    (rest : List LocalFile) (s : σ) (e : GoError)
    (hstat : d.stat s f.rel = .error e) :
    (statFromHead (.respErr 404) = .ok none) ∧
    (∀ (cfg : S3Config) (st : S3State) (rel : GoStr),
      lookupKey st (fullKey cfg.pfx rel) = none → s3Stat cfg st rel = .ok none) ∧
    (∀ status : Nat, status ≠ 404 → statFromHead (.respErr status) = .error (.http status)) ∧
    (∀ msg : GoStr, statFromHead (.otherErr msg) = .error (.backend msg)) ∧
    syncFilesRun d dry (f :: rest) s =
      ({ emptyLog with stats := [f.rel] }, .error (.statWrap f.rel e)) := by
  refine ⟨rfl, ?_, ?_, fun msg => rfl, ?_⟩
  · intro cfg st rel h
    rw [s3Stat_eq, h]
    rfl
  · intro status h
    simp [statFromHead, h]
  · unfold syncFilesRun syncFileStep
    rw [hstat]

/-- C8 witness: a backend whose `stat` always fails with HTTP 403
makes a two-file run abort on the first file. -/
theorem c8_stat_absent_or_fatal_witness :
    ((⟨fun _ _ _ _ => .ok (), fun _ _ => .error (.http 403), fun _ => .ok [],
        fun _ _ => .ok ()⟩ : Destination Unit).stat () "a.txt".toList = .error (.http 403)) ∧
    ((statFromHead (.respErr 404) = .ok none) ∧
    (∀ (cfg : S3Config) (st : S3State) (rel : GoStr),
      lookupKey st (fullKey cfg.pfx rel) = none → s3Stat cfg st rel = .ok none) ∧
    (∀ status : Nat, status ≠ 404 → statFromHead (.respErr status) = .error (.http status)) ∧
    (∀ msg : GoStr, statFromHead (.otherErr msg) = .error (.backend msg)) ∧
    syncFilesRun (⟨fun _ _ _ _ => .ok (), fun _ _ => .error (.http 403), fun _ => .ok [],
        fun _ _ => .ok ()⟩ : Destination Unit) false
      (⟨"a.txt".toList, { size := 1, modTime := 0 }⟩ ::
        [⟨"b.txt".toList, { size := 1, modTime := 0 }⟩]) () =
      ({ emptyLog with stats := ["a.txt".toList] },
        .error (.statWrap "a.txt".toList (.http 403)))) :=
  ⟨rfl, c8_stat_absent_or_fatal
    (⟨fun _ _ _ _ => .ok (), fun _ _ => .error (.http 403), fun _ => .ok [],
      fun _ _ => .ok ()⟩ : Destination Unit) false
    ⟨"a.txt".toList, { size := 1, modTime := 0 }⟩
    [⟨"b.txt".toList, { size := 1, modTime := 0 }⟩] () (.http 403) rfl⟩

/-- C9: every metadata record `Stat` reconstructs carries a
whole-second modification time (a multiple of 10⁹ ns — Go's zero time
included); a missing or unparsable `mtime` entry yields exactly the
zero time; and comparing a zero-time stored value against a local file
whose truncated time differs classifies the file needs-upload, so the
live step prints the upload action and re-issues the put. -/
theorem c9_stat_wholesecond :
    (∀ (cl : Int) (md : List (GoStr × GoStr)) (m : ObjectMeta),
      statFromHead (.success cl md) = .ok (some m) → nsPerSec ∣ m.modTime) ∧
    (∀ (cl : Int) (md : List (GoStr × GoStr)) (m : ObjectMeta),
      statFromHead (.success cl md) = .ok (some m) →
      (lookupAssoc md mtimeKey = none ∨
        ∃ v, lookupAssoc md mtimeKey = some v ∧ parseInt v = none) →
      m.modTime = goZeroTime) ∧
    (∀ (τ : Type) (d : Destination τ) (s : τ) (f : LocalFile) (m : ObjectMeta),
      d.stat s f.rel = .ok (some m) → m.modTime = goZeroTime →
      truncSec f.info.modTime ≠ goZeroTime →
      upToDate (some m) f.info = false ∧
      (syncFileStep d false f s).1.actions = [Action.upload f.rel] ∧
      (syncFileStep d false f s).1.puts = [f.rel]) := by
  refine ⟨?_, ?_, ?_⟩
  · intro cl md m h
    simp only [statFromHead] at h
    rcases hmd : lookupAssoc md mtimeKey with _ | v
    · simp only [hmd] at h
      injection h with h1
      injection h1 with h2
      rw [← h2]
      exact ⟨-62135596800, by norm_num [goZeroTime, nsPerSec]⟩
    · simp only [hmd] at h
      rcases hts : parseInt v with _ | ts
      · simp only [hts] at h
        injection h with h1
        injection h1 with h2
        rw [← h2]
        exact ⟨-62135596800, by norm_num [goZeroTime, nsPerSec]⟩
      · simp only [hts] at h
        injection h with h1
        injection h1 with h2
        rw [← h2]
        exact ⟨ts, by ring⟩
  · intro cl md m h hmiss
    simp only [statFromHead] at h
    rcases hmiss with hmd | ⟨v, hmd, hts⟩
    · simp only [hmd] at h
      injection h with h1
      injection h1 with h2
      rw [← h2]
    · simp only [hmd, hts] at h
      injection h with h1
      injection h1 with h2
      rw [← h2]
  · intro τ d s f m hstat hzero htrunc
    have hne : m.modTime ≠ truncSec f.info.modTime := by
      rw [hzero]
      exact fun hc => htrunc hc.symm
    have hupd : upToDate (some m) f.info = false := by
      simp [upToDate, hne]
    refine ⟨hupd, ?_, ?_⟩
    · unfold syncFileStep
      rw [hstat]
      simp only [hupd, Bool.false_eq_true, if_false]
      rcases d.put s f.rel f.info.size f.info.modTime with e | s' <;> simp [emptyLog]
    · unfold syncFileStep
      rw [hstat]
      simp only [hupd, Bool.false_eq_true, if_false]
      rcases d.put s f.rel f.info.size f.info.modTime with e | s' <;> simp [emptyLog]

/-- C9 witness: an object stored without the `mtime` side-channel
entry stats to the zero time and gets re-uploaded. -/
theorem c9_stat_wholesecond_witness :
    ((s3Dest ⟨[]⟩).stat [("a.txt".toList, { contentLength := 5, metadata := [] })]
      "a.txt".toList = .ok (some { size := 5, modTime := goZeroTime })) ∧
    truncSec (1700000000123456789 : Int) ≠ goZeroTime ∧
    (upToDate (some { size := 5, modTime := goZeroTime })
        { size := 5, modTime := 1700000000123456789 } = false ∧
      (syncFileStep (s3Dest ⟨[]⟩) false
        ⟨"a.txt".toList, { size := 5, modTime := 1700000000123456789 }⟩
        [("a.txt".toList, { contentLength := 5, metadata := [] })]).1.actions =
        [Action.upload "a.txt".toList] ∧
      (syncFileStep (s3Dest ⟨[]⟩) false
        ⟨"a.txt".toList, { size := 5, modTime := 1700000000123456789 }⟩
        [("a.txt".toList, { contentLength := 5, metadata := [] })]).1.puts =
        ["a.txt".toList]) :=
  ⟨rfl, by decide,
    c9_stat_wholesecond.2.2 S3State (s3Dest ⟨[]⟩)
      [("a.txt".toList, { contentLength := 5, metadata := [] })]
      ⟨"a.txt".toList, { size := 5, modTime := 1700000000123456789 }⟩
      { size := 5, modTime := goZeroTime } rfl rfl (by decide)⟩

/-- C6: the orchestrator is strictly sequential. A validation error is
returned with an empty log (no phase ran); an upload-phase error is
returned with a log showing no list call, no delete and no local
check (the mirror phase never ran); with the delete flag off the
mirror phase never runs at all; and when validation and upload both
succeed and the flag is set, the run is exactly the upload phase
followed by the mirror phase. -/
theorem c6_sequencing (d : Destination σ) (opts : SyncOpts) (lfs : LocalFS) (s : σ) :
    (∀ e, validateSrc lfs.statPath opts.src = .error e →
      SyncRun d opts lfs s = (emptyLog, .error e)) ∧
    (∀ e log, validateSrc lfs.statPath opts.src = .ok () →
      syncFilesRun d opts.dryRun lfs.files s = (log, .error e) →
      SyncRun d opts lfs s = (log, .error e) ∧
        log.listCalls = 0 ∧ log.deletes = [] ∧ log.localChecks = []) ∧
    (opts.delete = false →
      (SyncRun d opts lfs s).1.listCalls = 0 ∧ (SyncRun d opts lfs s).1.deletes = []) ∧
    (∀ s1 log, validateSrc lfs.statPath opts.src = .ok () →
      syncFilesRun d opts.dryRun lfs.files s = (log, .ok s1) → opts.delete = true →
      SyncRun d opts lfs s =
        (logAppend log (deleteExtrasRun d opts.dryRun opts.src lfs.statPath s1).1,
          (deleteExtrasRun d opts.dryRun opts.src lfs.statPath s1).2)) := by
  refine ⟨?_, ?_, ?_, ?_⟩
  · intro e hv
    simp only [SyncRun, hv]
  · intro e log hv hp
    have hf := syncFilesRun_frame d opts.dryRun lfs.files s
    rw [hp] at hf
    exact ⟨by simp only [SyncRun, hv, hp], hf.1, hf.2.1, hf.2.2⟩
  · intro hdel
    rcases hv : validateSrc lfs.statPath opts.src with e | u
    · simp only [SyncRun, hv]
      exact ⟨rfl, rfl⟩
    · cases u
      rcases hp : syncFilesRun d opts.dryRun lfs.files s with ⟨log, r⟩
      have hf := syncFilesRun_frame d opts.dryRun lfs.files s
      rw [hp] at hf
      rcases r with e | s1
      · simp only [SyncRun, hv, hp]
        exact ⟨hf.1, hf.2.1⟩
      · simp only [SyncRun, hv, hp, hdel, Bool.false_eq_true, if_false]
        exact ⟨hf.1, hf.2.1⟩
  · intro s1 log hv hp hdel
    simp only [SyncRun, hv, hp, hdel, if_true]

/-- C6 witness: with a valid source directory and a backend whose
`stat` fails, the upload phase's error short-circuits the mirror phase
even though the delete flag is set. -/
theorem c6_sequencing_witness :
    (validateSrc (LocalFS.statPath ⟨[⟨"a.txt".toList, { size := 1, modTime := 0 }⟩],
        fun p => if p = "/src".toList then StatResult.found true else StatResult.notFound⟩)
      (SyncOpts.src ⟨"/src".toList, false, true⟩) = .ok ()) ∧
    (syncFilesRun (⟨fun _ _ _ _ => .ok (), fun _ _ => .error (.http 403), fun _ => .ok [],
        fun _ _ => .ok ()⟩ : Destination Unit) (SyncOpts.dryRun ⟨"/src".toList, false, true⟩)
      (LocalFS.files ⟨[⟨"a.txt".toList, { size := 1, modTime := 0 }⟩],
        fun p => if p = "/src".toList then StatResult.found true else StatResult.notFound⟩) () =
      ({ emptyLog with stats := ["a.txt".toList] },
        .error (.statWrap "a.txt".toList (.http 403)))) ∧
    (SyncRun (⟨fun _ _ _ _ => .ok (), fun _ _ => .error (.http 403), fun _ => .ok [],
        fun _ _ => .ok ()⟩ : Destination Unit) ⟨"/src".toList, false, true⟩
      ⟨[⟨"a.txt".toList, { size := 1, modTime := 0 }⟩],
        fun p => if p = "/src".toList then StatResult.found true else StatResult.notFound⟩ () =
      ({ emptyLog with stats := ["a.txt".toList] },
        .error (.statWrap "a.txt".toList (.http 403))) ∧
      ({ emptyLog with stats := ["a.txt".toList] } : RunLog).listCalls = 0 ∧
      ({ emptyLog with stats := ["a.txt".toList] } : RunLog).deletes = [] ∧
      ({ emptyLog with stats := ["a.txt".toList] } : RunLog).localChecks = []) :=
  ⟨rfl, rfl,
    (c6_sequencing (⟨fun _ _ _ _ => .ok (), fun _ _ => .error (.http 403), fun _ => .ok [],
        fun _ _ => .ok ()⟩ : Destination Unit) ⟨"/src".toList, false, true⟩
      ⟨[⟨"a.txt".toList, { size := 1, modTime := 0 }⟩],
        fun p => if p = "/src".toList then StatResult.found true else StatResult.notFound⟩
      ()).2.1 (.statWrap "a.txt".toList (.http 403))
      { emptyLog with stats := ["a.txt".toList] } rfl rfl⟩

/-- C5: syncing twice against an unchanged source tree and an
initially empty bucket uploads everything once and then nothing: the
first run succeeds, and the second run prints zero Action Records (in
particular zero uploads), because `Put` persisted the size and the
Unix-seconds modification time and the second run's stats reconstruct
them. -/
theorem c5_second_run_uploads_nothing (cfg : S3Config) (lfs : LocalFS) (src : GoStr)
    (hsrc : lfs.statPath src = .found true)
    (hnd : (lfs.files.map (fun f => f.rel)).Nodup)
    (hns : ∀ f ∈ lfs.files, f.rel.head? ≠ some '/')
    (hrange : ∀ f ∈ lfs.files, -(2 ^ 63) ≤ unixSec f.info.modTime ∧
      unixSec f.info.modTime ≤ 2 ^ 63 - 1) :
    ∃ s1, (SyncRun (s3Dest cfg) ⟨src, false, false⟩ lfs []).2 = .ok s1 ∧
      (SyncRun (s3Dest cfg) ⟨src, false, false⟩ lfs s1).1.actions = [] := by
  have hv : validateSrc lfs.statPath src = .ok () := by
    unfold validateSrc
    rw [hsrc]
    rfl
  have hndfk : (lfs.files.map (fun f => fullKey cfg.pfx f.rel)).Nodup := by
    have hmm : lfs.files.map (fun f => fullKey cfg.pfx f.rel) =
        (lfs.files.map (fun f => f.rel)).map (fullKey cfg.pfx) := by
      rw [List.map_map]
      rfl
    rw [hmm]
    refine List.Nodup.map_on ?_ hnd
    intro x hx y hy hxy
    rcases List.mem_map.mp hx with ⟨fx, hfx, hfx2⟩
    rcases List.mem_map.mp hy with ⟨fy, hfy, hfy2⟩
    exact fullKey_inj cfg.pfx x y (hfx2 ▸ hns fx hfx) (hfy2 ▸ hns fy hfy) hxy
  have h1 := syncFiles_fresh cfg lfs.files [] (fun f _ => rfl) hndfk
  refine ⟨putAll cfg lfs.files [], ?_, ?_⟩
  · simp only [SyncRun, hv, h1, Bool.false_eq_true, if_false]
  · have hstat2 : ∀ f ∈ lfs.files, (s3Dest cfg).stat (putAll cfg lfs.files []) f.rel =
        .ok (some { size := f.info.size, modTime := truncSec f.info.modTime }) := by
      intro f hf
      show s3Stat cfg (putAll cfg lfs.files []) f.rel = _
      rw [s3Stat_eq, lookupKey_putAll cfg lfs.files f [] hf hndfk]
      simp only [Option.map_some']
      rw [metaOf_objFor f (hrange f hf).1 (hrange f hf).2]
    have h2 := syncFiles_skip (s3Dest cfg) lfs.files (putAll cfg lfs.files []) hstat2
    simp only [SyncRun, hv, h2, Bool.false_eq_true, if_false]
    rfl

/-- C5 witness: a one-file source tree synced twice into an empty
bucket produces no action on the second run. -/
theorem c5_second_run_uploads_nothing_witness :
    (LocalFS.statPath ⟨[⟨"a.txt".toList, { size := 5, modTime := 1700000000123456789 }⟩],
        fun p => if p = "/src".toList then StatResult.found true else StatResult.notFound⟩
      "/src".toList = .found true) ∧
    ∃ s1, (SyncRun (s3Dest ⟨[]⟩) ⟨"/src".toList, false, false⟩
        ⟨[⟨"a.txt".toList, { size := 5, modTime := 1700000000123456789 }⟩],
          fun p => if p = "/src".toList then StatResult.found true else StatResult.notFound⟩
        []).2 = .ok s1 ∧
      (SyncRun (s3Dest ⟨[]⟩) ⟨"/src".toList, false, false⟩
        ⟨[⟨"a.txt".toList, { size := 5, modTime := 1700000000123456789 }⟩],
          fun p => if p = "/src".toList then StatResult.found true else StatResult.notFound⟩
        s1).1.actions = [] :=
  ⟨rfl, c5_second_run_uploads_nothing ⟨[]⟩
    ⟨[⟨"a.txt".toList, { size := 5, modTime := 1700000000123456789 }⟩],
      fun p => if p = "/src".toList then StatResult.found true else StatResult.notFound⟩
    "/src".toList rfl (by decide) (by decide) (by decide)⟩

/-- C4: with the dry-run flag set, a `Sync` run issues no put and no
delete call in either phase and returns the bucket unchanged, while
still performing the reads: it issues the same destination stats and
the same number of list calls as a live run from the same initial
state, checks the local path of every key it lists, and prints
exactly the Action Records the live run would print. -/
theorem c4_dry_run_parity (cfg : S3Config) (lfs : LocalFS) (src : GoStr) (del : Bool)
    (s : S3State)
    (hsrc : lfs.statPath src = .found true)
    (hnd : (lfs.files.map (fun f => f.rel)).Nodup)
    (hns : ∀ f ∈ lfs.files, f.rel.head? ≠ some '/')
    (hexists : ∀ f ∈ lfs.files,
      isNotFound (lfs.statPath (joinPath src (fromSlash f.rel))) = false) :
    (SyncRun (s3Dest cfg) ⟨src, true, del⟩ lfs s).1.puts = [] ∧
    (SyncRun (s3Dest cfg) ⟨src, true, del⟩ lfs s).1.deletes = [] ∧
    (SyncRun (s3Dest cfg) ⟨src, true, del⟩ lfs s).2 = .ok s ∧
    (SyncRun (s3Dest cfg) ⟨src, true, del⟩ lfs s).1.actions =
      (SyncRun (s3Dest cfg) ⟨src, false, del⟩ lfs s).1.actions ∧
    (SyncRun (s3Dest cfg) ⟨src, true, del⟩ lfs s).1.stats =
      (SyncRun (s3Dest cfg) ⟨src, false, del⟩ lfs s).1.stats ∧
    (SyncRun (s3Dest cfg) ⟨src, true, del⟩ lfs s).1.listCalls =
      (SyncRun (s3Dest cfg) ⟨src, false, del⟩ lfs s).1.listCalls := by
  have hv : validateSrc lfs.statPath src = .ok () := by
    unfold validateSrc
    rw [hsrc]
    rfl
  have hndfk := nodup_fullKeys cfg lfs.files hnd hns
  rcases syncFiles_dry_live cfg lfs.files s s (fun f _ => rfl) hndfk with
    ⟨hact, hstat, hput, hdry, s'', ex, hlive, hkeys, hex⟩
  have hframeD := syncFilesRun_frame (s3Dest cfg) true lfs.files s
  have hframeL := syncFilesRun_frame (s3Dest cfg) false lfs.files s
  rcases hD1 : syncFilesRun (s3Dest cfg) true lfs.files s with ⟨logD1, rD1⟩
  rcases hL1 : syncFilesRun (s3Dest cfg) false lfs.files s with ⟨logL1, rL1⟩
  rw [hD1] at hact hstat hput hdry hframeD
  rw [hL1] at hact hstat hlive hframeL
  have hact1 : logD1.actions = logL1.actions := hact
  have hstat1 : logD1.stats = logL1.stats := hstat
  have hput1 : logD1.puts = [] := hput
  have hrD1 : rD1 = .ok s := hdry
  have hrL1 : rL1 = .ok s'' := hlive
  subst hrD1
  subst hrL1
  cases del with
  | false =>
    have hSD : SyncRun (s3Dest cfg) ⟨src, true, false⟩ lfs s = (logD1, .ok s) := by
      simp [SyncRun, hv, hD1]
    have hSL : SyncRun (s3Dest cfg) ⟨src, false, false⟩ lfs s = (logL1, .ok s'') := by
      simp [SyncRun, hv, hL1]
    rw [hSD, hSL]
    exact ⟨hput1, hframeD.2.1, rfl, hact1, hstat1, by rw [hframeD.1, hframeL.1]⟩
  | true =>
    rcases deleteExtras_s3 cfg true src lfs.statPath s with ⟨sendD, hP2D, hdryD⟩
    have hsendD : sendD = s := hdryD rfl
    rw [hsendD] at hP2D
    rcases deleteExtras_s3 cfg false src lfs.statPath s'' with ⟨sendL, hP2L, _⟩
    have hSD : SyncRun (s3Dest cfg) ⟨src, true, true⟩ lfs s =
        (logAppend logD1 (deleteExtrasRun (s3Dest cfg) true src lfs.statPath s).1,
          (deleteExtrasRun (s3Dest cfg) true src lfs.statPath s).2) := by
      simp [SyncRun, hv, hD1]
    have hSL : SyncRun (s3Dest cfg) ⟨src, false, true⟩ lfs s =
        (logAppend logL1 (deleteExtrasRun (s3Dest cfg) false src lfs.statPath s'').1,
          (deleteExtrasRun (s3Dest cfg) false src lfs.statPath s'').2) := by
      simp [SyncRun, hv, hL1]
    have hkl : listKeysOf cfg (keyList s'') =
        listKeysOf cfg (keyList s) ++ listKeysOf cfg ex := by
      rw [hkeys, listKeysOf_append]
    have hfilter_ex : (listKeysOf cfg ex).filter
        (fun k => isNotFound (lfs.statPath (joinPath src (fromSlash k)))) = [] := by
      rw [List.filter_eq_nil_iff]
      intro k hk
      rcases List.mem_map.mp hk with ⟨k', hk', rfl⟩
      have hk2 : k' ∈ ex := (List.mem_filter.mp hk').1
      rcases hex k' hk2 with ⟨f, hf, rfl⟩
      rw [relKey_fullKey cfg.pfx f.rel (hns f hf)]
      simp [hexists f hf]
    have hfD_del : logD1.deletes = [] := hframeD.2.1
    have hfD_list : logD1.listCalls = 0 := hframeD.1
    have hfL_list : logL1.listCalls = 0 := hframeL.1
    rw [hSD, hSL, hP2D, hP2L]
    refine ⟨?_, ?_, rfl, ?_, ?_, ?_⟩
    · simp [logAppend, emptyLog, hput1]
    · simp [logAppend, emptyLog, hfD_del]
    · simp only [logAppend, emptyLog]
      rw [hact1, hkl, List.filter_append, hfilter_ex, List.append_nil]
    · simp [logAppend, emptyLog, hstat1]
    · simp [logAppend, emptyLog, hfD_list, hfL_list]

/-- C4 witness: one new local file plus one remote-only key, mirroring
enabled: the dry run writes nothing and prints the same two actions
the live run prints. -/
theorem c4_dry_run_parity_witness :
    (LocalFS.statPath ⟨[⟨"new.txt".toList, { size := 3, modTime := 0 }⟩],
        fun p => if p = "/src".toList then StatResult.found true
          else if p = "/src/new.txt".toList then StatResult.found false
          else StatResult.notFound⟩ "/src".toList = .found true) ∧
    ((SyncRun (s3Dest ⟨[]⟩) ⟨"/src".toList, true, true⟩
        ⟨[⟨"new.txt".toList, { size := 3, modTime := 0 }⟩],
          fun p => if p = "/src".toList then StatResult.found true
            else if p = "/src/new.txt".toList then StatResult.found false
            else StatResult.notFound⟩
        [("stale.txt".toList, { contentLength := 1, metadata := [] })]).1.puts = [] ∧
      (SyncRun (s3Dest ⟨[]⟩) ⟨"/src".toList, true, true⟩
        ⟨[⟨"new.txt".toList, { size := 3, modTime := 0 }⟩],
          fun p => if p = "/src".toList then StatResult.found true
            else if p = "/src/new.txt".toList then StatResult.found false
            else StatResult.notFound⟩
        [("stale.txt".toList, { contentLength := 1, metadata := [] })]).1.deletes = [] ∧
      (SyncRun (s3Dest ⟨[]⟩) ⟨"/src".toList, true, true⟩
        ⟨[⟨"new.txt".toList, { size := 3, modTime := 0 }⟩],
          fun p => if p = "/src".toList then StatResult.found true
            else if p = "/src/new.txt".toList then StatResult.found false
            else StatResult.notFound⟩
        [("stale.txt".toList, { contentLength := 1, metadata := [] })]).2 =
        .ok [("stale.txt".toList, { contentLength := 1, metadata := [] })] ∧
      (SyncRun (s3Dest ⟨[]⟩) ⟨"/src".toList, true, true⟩
        ⟨[⟨"new.txt".toList, { size := 3, modTime := 0 }⟩],
          fun p => if p = "/src".toList then StatResult.found true
            else if p = "/src/new.txt".toList then StatResult.found false
            else StatResult.notFound⟩
        [("stale.txt".toList, { contentLength := 1, metadata := [] })]).1.actions =
      (SyncRun (s3Dest ⟨[]⟩) ⟨"/src".toList, false, true⟩
        ⟨[⟨"new.txt".toList, { size := 3, modTime := 0 }⟩],
          fun p => if p = "/src".toList then StatResult.found true
            else if p = "/src/new.txt".toList then StatResult.found false
            else StatResult.notFound⟩
        [("stale.txt".toList, { contentLength := 1, metadata := [] })]).1.actions ∧
      (SyncRun (s3Dest ⟨[]⟩) ⟨"/src".toList, true, true⟩
        ⟨[⟨"new.txt".toList, { size := 3, modTime := 0 }⟩],
          fun p => if p = "/src".toList then StatResult.found true
            else if p = "/src/new.txt".toList then StatResult.found false
            else StatResult.notFound⟩
        [("stale.txt".toList, { contentLength := 1, metadata := [] })]).1.stats =
      (SyncRun (s3Dest ⟨[]⟩) ⟨"/src".toList, false, true⟩
        ⟨[⟨"new.txt".toList, { size := 3, modTime := 0 }⟩],
          fun p => if p = "/src".toList then StatResult.found true
            else if p = "/src/new.txt".toList then StatResult.found false
            else StatResult.notFound⟩
        [("stale.txt".toList, { contentLength := 1, metadata := [] })]).1.stats ∧
      (SyncRun (s3Dest ⟨[]⟩) ⟨"/src".toList, true, true⟩
        ⟨[⟨"new.txt".toList, { size := 3, modTime := 0 }⟩],
          fun p => if p = "/src".toList then StatResult.found true
            else if p = "/src/new.txt".toList then StatResult.found false
            else StatResult.notFound⟩
        [("stale.txt".toList, { contentLength := 1, metadata := [] })]).1.listCalls =
      (SyncRun (s3Dest ⟨[]⟩) ⟨"/src".toList, false, true⟩
        ⟨[⟨"new.txt".toList, { size := 3, modTime := 0 }⟩],
          fun p => if p = "/src".toList then StatResult.found true
            else if p = "/src/new.txt".toList then StatResult.found false
            else StatResult.notFound⟩
        [("stale.txt".toList, { contentLength := 1, metadata := [] })]).1.listCalls) :=
  ⟨rfl, c4_dry_run_parity ⟨[]⟩
    ⟨[⟨"new.txt".toList, { size := 3, modTime := 0 }⟩],
      fun p => if p = "/src".toList then StatResult.found true
        else if p = "/src/new.txt".toList then StatResult.found false
        else StatResult.notFound⟩
    "/src".toList true [("stale.txt".toList, { contentLength := 1, metadata := [] })]
    rfl (by decide) (by decide) (by decide)⟩

end FolderSync

